import Mathlib

/-!
Shallow embedding of the prediction-store module (src/stores/prediction.js).

The store keeps an ordered registry of tracked outputs.  A registry entry
may be `none` (a persisted `null` slot) and an output may lack its
`metadata` object or its `prediction_id`: the JavaScript values
`null`/`undefined` are modelled with `Option`.  Numbers are modelled by
`Rat`; a non-finite number (`NaN`/`Infinity`) produced by a bad aspect
ratio is modelled by `none` in an `Option Rat` field.  Network effects are
modelled by explicit environments: the result of the single creation call,
the result of the single batched poll call, and, for asset conversion, a
`fetch` oracle plus a `read` oracle for the file-reader stage.  A thrown
JavaScript exception is modelled with `Except Unit` (or `none` for the
oracles).
-/

namespace Reflux

/-- Generation-input object. `aspect_ratio` is the field the creation code
reads; `extra` stands for the remaining opaque fields of the object. -/
structure Input where
  aspect_ratio : String
  extra : Nat
  deriving DecidableEq, Repr

/-- A JavaScript value appearing as a result reference: a string, an array
of values, or some other opaque (non-string, non-array) value tagged by a
number. -/
inductive Asset where
  | str (s : String) : Asset
  | arr (elems : List Asset) : Asset
  | other (tag : Nat) : Asset
  deriving Repr

mutual

def Asset.beq : Asset → Asset → Bool
  | .str s, .str t => s == t
  | .arr xs, .arr ys => Asset.beqList xs ys
  | .other a, .other b => a == b
  | .str _, .arr _ => false
  | .str _, .other _ => false
  | .arr _, .str _ => false
  | .arr _, .other _ => false
  | .other _, .str _ => false
  | .other _, .arr _ => false

def Asset.beqList : List Asset → List Asset → Bool
  | [], [] => true
  | x :: xs, y :: ys => Asset.beq x y && Asset.beqList xs ys
  | [], _ :: _ => false
  | _ :: _, [] => false

end

mutual

def Asset.eq_of_beq : (a b : Asset) → Asset.beq a b = true → a = b
  | .str s, .str t, h => by
    simp only [Asset.beq, beq_iff_eq] at h; rw [h]
  | .arr xs, .arr ys, h => by
    rw [Asset.eqList_of_beqList xs ys (by simpa only [Asset.beq] using h)]
  | .other a, .other b, h => by
    simp only [Asset.beq, beq_iff_eq] at h; rw [h]
  | .str _, .arr _, h => by simp [Asset.beq] at h
  | .str _, .other _, h => by simp [Asset.beq] at h
  | .arr _, .str _, h => by simp [Asset.beq] at h
  | .arr _, .other _, h => by simp [Asset.beq] at h
  | .other _, .str _, h => by simp [Asset.beq] at h
  | .other _, .arr _, h => by simp [Asset.beq] at h

def Asset.eqList_of_beqList : (xs ys : List Asset) → Asset.beqList xs ys = true → xs = ys
  | [], [], _ => rfl
  | x :: xs, y :: ys, h => by
    have h2 : Asset.beq x y = true ∧ Asset.beqList xs ys = true := by
      simp only [Asset.beqList, Bool.and_eq_true] at h; exact h
    rw [Asset.eq_of_beq x y h2.1, Asset.eqList_of_beqList xs ys h2.2]
  | [], _ :: _, h => by simp [Asset.beqList] at h
  | _ :: _, [], h => by simp [Asset.beqList] at h

end

mutual

def Asset.beq_refl : (a : Asset) → Asset.beq a a = true
  | .str s => by simp only [Asset.beq, beq_self_eq_true]
  | .arr xs => by simpa only [Asset.beq] using Asset.beqList_refl xs
  | .other a => by simp only [Asset.beq, beq_self_eq_true]

def Asset.beqList_refl : (xs : List Asset) → Asset.beqList xs xs = true
  | [] => rfl
  | x :: xs => by
    simp only [Asset.beqList, Bool.and_eq_true]
    exact ⟨Asset.beq_refl x, Asset.beqList_refl xs⟩

end

instance : DecidableEq Asset := fun a b =>
  decidable_of_iff (Asset.beq a b = true)
    ⟨Asset.eq_of_beq a b, fun h => h ▸ Asset.beq_refl a⟩

instance {ε α : Type} [DecidableEq ε] [DecidableEq α] :
    DecidableEq (Except ε α) := fun a b =>
  match a, b with
  | .error e, .error f =>
    if h : e = f then isTrue (by rw [h])
    else isFalse (fun hh => h (by cases hh; rfl))
  | .ok x, .ok y =>
    if h : x = y then isTrue (by rw [h])
    else isFalse (fun hh => h (by cases hh; rfl))
  | .error _, .ok _ => isFalse (fun hh => by cases hh)
  | .ok _, .error _ => isFalse (fun hh => by cases hh)

/-- JavaScript truthiness of a result-reference value: the empty string is
falsy; arrays and the opaque values we model are truthy. -/
def Asset.truthy : Asset → Bool
  | .str s => s != ""
  | .arr _ => true
  | .other _ => true

/-- Whether a value is an array, as `Array.isArray`. -/
def Asset.isArr : Asset → Bool
  | .arr _ => true
  | _ => false

/-- The body of a fetched response: its reported content `type` (possibly
empty) and its bytes, abstracted as the base64 payload the file reader
would produce for them. -/
structure Blob where
  type : String
  data : String
  deriving DecidableEq, Repr

/-- Environment for asset conversion.  `fetch url = none` models
`fetch`/`blob()` throwing (network failure); `read b = none` models the
file reader invoking `onerror` (its promise rejects); `read b = some p`
models a successful read whose data-URI payload is `p`. -/
structure ConvEnv where
  fetch : String → Option Blob
  read : Blob → Option String

/-! The JavaScript string builtins the module applies (`split` on a
one-character separator, `startsWith`, `toLowerCase`, `Number` on a digit
string) are modelled over the character list of the string, so that every
definition evaluates inside the kernel. -/

/-- `String.prototype.split` with a one-character separator: the chunks
between the occurrences of the separator, empty chunks included. -/
def jsSplitAux (sep : Char) : List Char → List Char → List String
  | [], acc => [String.mk acc.reverse]
  | c :: cs, acc =>
    if c = sep then String.mk acc.reverse :: jsSplitAux sep cs []
    else jsSplitAux sep cs (c :: acc)

def jsSplit (s : String) (sep : Char) : List String :=
  jsSplitAux sep s.data []

/-- `String.prototype.startsWith`. -/
def jsStartsWith (s pre : String) : Bool :=
  pre.data.isPrefixOf s.data

/-- ASCII `String.prototype.toLowerCase`, enough for file extensions. -/
def jsLowerChar (c : Char) : Char :=
  if 65 ≤ c.toNat ∧ c.toNat ≤ 90 then Char.ofNat (c.toNat + 32) else c

def jsToLower (s : String) : String :=
  String.mk (s.data.map jsLowerChar)

/-- JavaScript `Number` restricted to the aspect-ratio grammar: a
non-empty all-digit string denotes that natural number; any other string
is mapped to `none`, standing for a NaN parse. -/
def jsToNatAux : List Char → Nat → Option Nat
  | [], acc => some acc
  | c :: cs, acc =>
    if c.isDigit then jsToNatAux cs (10 * acc + (c.toNat - 48)) else none

def jsToNat (s : String) : Option Nat :=
  if s.data.isEmpty then none else jsToNatAux s.data 0

def imageExtensions : List String := ["jpg", "jpeg", "png", "gif", "webp"]

/-- Media type chosen in `urlToBase64`: the lower-cased extension of the
last path segment when it is a known image extension (with jpg mapped to
jpeg), otherwise the blob's reported type, otherwise the generic binary
type. -/
def mediaTypeFor (url : String) (blobType : String) : String :=
  let fileName := (jsSplit url '/').getLastD ""
  let fileExtension := jsToLower ((jsSplit fileName '.').getLastD "")
  if imageExtensions.contains fileExtension then
    "image/" ++ (if fileExtension == "jpg" then "jpeg" else fileExtension)
  else if blobType != "" then blobType
  else "application/octet-stream"

/-- `convertSingle` from `urlToBase64`.  A non-string or a string not
starting with "https" is returned unchanged.  A fetch failure is caught by
the enclosing catch, which returns the original url.  A file-reader
failure rejects the promise that the function returns after the try block,
so it escapes the catch: modelled by `.error ()`. -/
def convertSingle (env : ConvEnv) (url : Asset) : Except Unit Asset :=
  match url with
  | .str s =>
    if jsStartsWith s "https" then
      match env.fetch s with
      | none => .ok (.str s)
      | some blob =>
        match env.read blob with
        | none => .error ()
        | some payload =>
          .ok (.str ("data:" ++ mediaTypeFor s blob.type ++ ";base64," ++ payload))
    else .ok (.str s)
  | a => .ok a

/-- `Promise.all` over the element conversions: the results in order when
every element fulfils, a rejection as soon as any element rejects. -/
def mapAll (f : Asset → Except Unit Asset) : List Asset → Except Unit (List Asset)
  | [] => .ok []
  | a :: rest =>
    match f a, mapAll f rest with
    | .ok b, .ok bs => .ok (b :: bs)
    | .error e, _ => .error e
    | _, .error e => .error e

/-- `urlToBase64`: an array input is converted element-wise via
`Promise.all`; anything else goes through `convertSingle` directly. -/
def urlToBase64 (env : ConvEnv) (urlOrArray : Asset) : Except Unit Asset :=
  match urlOrArray with
  | .arr elems => (mapAll (convertSingle env) elems).map .arr
  | a => convertSingle env a

/-- The `metadata` object of an output.  `prediction_id` is `none` when the
field is missing; `width`/`height` are `none` when the stored number is not
finite (NaN or Infinity from a malformed aspect ratio). -/
structure Metadata where
  prediction_id : Option String
  x : Rat
  y : Rat
  rotation : Rat
  width : Option Rat
  height : Option Rat
  deriving DecidableEq, Repr

/-- A tracked output.  `output` is the materialized result (null until a
successful conversion); `metadata` is `none` when the persisted entry lacks
its metadata object. -/
structure Output where
  id : String
  status : String
  input : Input
  output : Option Asset
  metadata : Option Metadata
  deriving DecidableEq, Repr

/-- The outputs array.  An entry is `none` when the persisted array holds a
null slot. -/
abbrev Registry := List (Option Output)

/-- Predicate of `cleanupOutputs`: the output object, its metadata and its
`prediction_id` are all truthy (a missing object or an empty id string is
falsy) and the id has positive length. -/
def isValidOutput (o : Option Output) : Bool :=
  match o with
  | some out =>
    match out.metadata with
    | some m =>
      match m.prediction_id with
      | some pid => decide (0 < pid.length)
      | none => false
    | none => false
  | none => false

/-- `cleanupOutputs`: keep exactly the entries with a usable id. -/
def cleanupOutputs (outs : Registry) : Registry :=
  outs.filter isValidOutput

/-- Predicate of the `incompletePredictions` getter: a truthy output with
truthy metadata and truthy (hence non-empty) `prediction_id` whose status
is neither succeeded nor failed. -/
def isIncomplete (o : Option Output) : Bool :=
  match o with
  | some out =>
    match out.metadata with
    | some m =>
      match m.prediction_id with
      | some pid => pid != "" && out.status != "succeeded" && out.status != "failed"
      | none => false
    | none => false
  | none => false

/-- The `incompletePredictions` getter. -/
def incompletePredictions (outs : Registry) : Registry :=
  outs.filter isIncomplete

/-- The response of the creation endpoint when the call did not throw.
`error = true` models a response carrying a truthy `error` field. -/
structure CreateResp where
  id : String
  status : String
  input : Input
  error : Bool
  deriving DecidableEq, Repr

/-- JavaScript `Number` applied to one aspect-ratio component, as a
rational. -/
def jsNum (s : String) : Option Rat :=
  (jsToNat s).map (fun n => (n : Rat))

/-- `createPrediction`.  The first argument is the outcome of the awaited
creation call: `.error ()` models a thrown transport error, caught by the
surrounding catch which returns with no mutation.  An error-carrying
response also returns with no mutation.  Otherwise the scaled placement
dimensions are computed from the caller's `input.aspect_ratio` and the new
output is appended to the registry. -/
def createPrediction (resp : Except Unit CreateResp) (input : Input)
    (outs : Registry) : Registry :=
  match resp with
  | .error _ => outs
  | .ok p =>
    if p.error then outs
    else
      let baseSize : Rat := 300
      let parts := jsSplit input.aspect_ratio ':'
      let widthNum := jsNum (parts.getD 0 "")
      let heightNum := jsNum (parts.getD 1 "")
      let scaledHeight : Option Rat :=
        match widthNum, heightNum with
        | some w, some h => if w = 0 then none else some (h / w * baseSize)
        | _, _ => none
      outs ++ [some {
        id := "output-" ++ p.id,
        status := p.status,
        input := p.input,
        output := none,
        metadata := some {
          prediction_id := some p.id,
          x := 0, y := 0, rotation := 0,
          width := some baseSize,
          height := scaledHeight } }]

/-- One record of the poll response.  `id = none` models a record whose id
field is missing; `output = none` models a null result reference. -/
structure RemoteJob where
  id : Option String
  status : String
  input : Input
  output : Option Asset
  deriving DecidableEq, Repr

/-- Outcome of the awaited batched poll call.  `throw` is a thrown
transport error; `fail` is a falsy response or a response carrying an
error field; `ok jobs` is the response normalized to a sequence (a
non-array response is the singleton of that record, a null record in the
sequence is `none`). -/
inductive PollResp where
  | throw : PollResp
  | fail : PollResp
  | ok (jobs : List (Option RemoteJob)) : PollResp

/-- Result of one `pollIncompletePredictions` invocation: the id list of
the single batched request when one was issued, and the outputs array
afterwards. -/
structure PollResult where
  request : Option (List String)
  outputs : Registry
  deriving DecidableEq, Repr

/-- First-occurrence deduplication, as the spread of a JavaScript `Set`
built from the list: each element is kept at its first occurrence and its
later duplicates are dropped. -/
def jsDedup : List String → List String
  | [] => []
  | x :: xs => x :: (jsDedup xs).filter (fun y => y != x)

/-- The id list of the batched poll request: over the incomplete outputs,
`metadata.prediction_id` (with a falsy value replaced by null), kept when
truthy with positive length, then deduplicated. -/
def pollIds (outs : Registry) : List String :=
  jsDedup ((incompletePredictions outs).filterMap (fun o =>
    match (o.bind Output.metadata).bind Metadata.prediction_id with
    | some pid => if 0 < pid.length then some pid else none
    | none => none))

/-- `output?.metadata?.prediction_id === prediction.id` for a job id that
was checked truthy. -/
def matchesJob (jid : String) (o : Option Output) : Bool :=
  match (o.bind Output.metadata).bind Metadata.prediction_id with
  | some pid => pid == jid
  | none => false

/-- `o.id === cid` on a non-null entry.  In the reconciliation loop the
array was cleaned first, so a null entry (on which the JavaScript access
would throw) cannot occur there. -/
def matchesId (cid : String) (o : Option Output) : Bool :=
  match o with
  | some out => out.id == cid
  | none => false

/-- The updated copy of one matched output: status and input replaced by
the job's values; when the job carries a truthy result reference, the
conversion outcome replaces `output` on success and is dropped (the catch
logs and keeps the spread copy's previous value) on failure. -/
def updatedOutput (env : ConvEnv) (j : RemoteJob) (snap : Output) : Output :=
  let base : Output := { snap with status := j.status, input := j.input }
  match j.output with
  | some res =>
    if res.truthy then
      match urlToBase64 env res with
      | .ok conv => { base with output := some conv }
      | .error _ => base
    else base
  | none => base

/-- Reconciling one snapshotted output: find its current index by client
id and replace that slot with the updated copy; a vanished id is skipped. -/
def applyUpdate (env : ConvEnv) (j : RemoteJob) (outs : Registry)
    (snap : Output) : Registry :=
  match outs.findIdx? (matchesId snap.id) with
  | none => outs
  | some idx => outs.set idx (some (updatedOutput env j snap))

/-- One step of the inner update loop, applied to the next snapshotted
entry. -/
def reconcileStep (env : ConvEnv) (j : RemoteJob) (acc : Registry)
    (snapOpt : Option Output) : Registry :=
  match snapOpt with
  | some snap => applyUpdate env j acc snap
  | none => acc

/-- Reconciling one returned job with a truthy id `jid`: snapshot the
outputs matching the job's remote id, then update each in turn. -/
def reconcileJob (env : ConvEnv) (j : RemoteJob) (jid : String)
    (outs : Registry) : Registry :=
  (outs.filter (matchesJob jid)).foldl (reconcileStep env j) outs

/-- The reconciliation loop: null records and records with a falsy id are
skipped. -/
def processJobs (env : ConvEnv) (jobs : List (Option RemoteJob))
    (outs : Registry) : Registry :=
  jobs.foldl (fun acc pj =>
    match pj with
    | none => acc
    | some j =>
      match j.id with
      | none => acc
      | some jid => if jid == "" then acc else reconcileJob env j jid acc) outs

/-- `pollIncompletePredictions`: clean up, compute the distinct ids of the
incomplete outputs; with no ids, return with no request; otherwise issue
the single batched request and either abort with the cleaned registry (a
thrown call or a falsy/erroring response) or reconcile the returned
records. -/
def pollIncompletePredictions (env : ConvEnv) (resp : PollResp)
    (outs : Registry) : PollResult :=
  let cleaned := cleanupOutputs outs
  let ids := pollIds cleaned
  if ids.length = 0 then { request := none, outputs := cleaned }
  else
    match resp with
    | .throw => { request := some ids, outputs := cleaned }
    | .fail => { request := some ids, outputs := cleaned }
    | .ok jobs => { request := some ids, outputs := processJobs env jobs cleaned }

/-- `outputs.findIndex((output) => output.id === id)` on the raw
registry: reading `.id` of a null slot throws, which `.error ()` models;
otherwise the first matching index, as `.ok`. -/
def jsFindIndexById (id : String) : Registry → Except Unit (Option Nat)
  | [] => .ok none
  | none :: _ => .error ()
  | some out :: rest =>
    if out.id == id then .ok (some 0)
    else (jsFindIndexById id rest).map (fun r => r.map (· + 1))

/-- `if (width !== undefined) metadata.width = width`: an undefined
argument leaves the stored field, a provided number overwrites it. -/
def jsAssign (arg : Option Rat) (old : Option Rat) : Option Rat :=
  match arg with
  | some v => some v
  | none => old

/-- The metadata object after the position assignments of
`updateOutputPosition`: x, y and rotation overwritten unconditionally,
width and height only when provided. -/
def placedMeta (x y rotation : Rat) (width height : Option Rat)
    (m : Metadata) : Metadata :=
  { m with
      x := x
      y := y
      rotation := rotation
      width := jsAssign width m.width
      height := jsAssign height m.height }

/-- `updateOutputPosition`.  A throw while scanning (a null slot before
any match) leaves the array untouched, as does a missing id.  On a match
(the found index always holds a non-null entry), assigning through a
missing metadata object throws before any field is written; otherwise the
position fields are assigned in place. -/
def updateOutputPosition (id : String) (x y rotation : Rat)
    (width height : Option Rat) (outs : Registry) : Registry :=
  match jsFindIndexById id outs with
  | .error _ => outs
  | .ok none => outs
  | .ok (some idx) =>
    match outs[idx]? with
    | some (some out) =>
      match out.metadata with
      | none => outs
      | some m =>
        outs.set idx
          (some { out with metadata := some (placedMeta x y rotation width height m) })
    | _ => outs

/-- Client ids of the non-null entries, in order. -/
def idsOf (outs : Registry) : List String :=
  outs.filterMap (fun o => o.map Output.id)

/-- The spec's notion of an output trackable for polling with remote id
`s`: present, with metadata, carrying non-empty `prediction_id = s`, and
in a non-terminal status. -/
def specTrackable (s : String) (o : Option Output) : Prop :=
  ∃ out m, o = some out ∧ out.metadata = some m ∧ m.prediction_id = some s ∧
    s ≠ "" ∧ out.status ≠ "succeeded" ∧ out.status ≠ "failed"

/-- The spec's notion of a fetchable remote reference: a string beginning
with the remote scheme. -/
def isRemoteRef : Asset → Bool
  | .str s => jsStartsWith s "https"
  | _ => false

/-! Concrete sample values used to instantiate the theorems. -/

def sampleInput : Input :=
  { aspect_ratio := "4:3", extra := 0 }

def sampleOutput1 : Output :=
  { id := "o1"
    status := "starting"
    input := sampleInput
    output := some (.str "old")
    metadata := some
      { prediction_id := some "job1"
        x := 1
        y := 2
        rotation := 0
        width := some 300
        height := some 225 } }

def sampleOutput2 : Output :=
  { id := "o2"
    status := "processing"
    input := sampleInput
    output := none
    metadata := some
      { prediction_id := some "job1"
        x := 0
        y := 0
        rotation := 0
        width := some 300
        height := some 300 } }

def sampleNoMeta : Output :=
  { id := "nm"
    status := "starting"
    input := sampleInput
    output := none
    metadata := none }

def sampleEnvOK : ConvEnv :=
  { fetch := fun _ => some { type := "", data := "QUJD" }
    read := fun b => some b.data }

def sampleEnvFetchFail : ConvEnv :=
  { fetch := fun _ => none
    read := fun b => some b.data }

def sampleEnvReadFail : ConvEnv :=
  { fetch := fun _ => some { type := "t/x", data := "QUJD" }
    read := fun _ => none }

def sampleJob : RemoteJob :=
  { id := some "job1"
    status := "succeeded"
    input := sampleInput
    output := some (.str "https://a/b.png") }

end Reflux

namespace Reflux

/-! Helper lemmas. -/

theorem mem_jsDedup (a : String) (l : List String) : a ∈ jsDedup l ↔ a ∈ l := by
  induction l with
  | nil => simp [jsDedup]
  | cons x xs ih =>
    simp only [jsDedup, List.mem_cons, List.mem_filter, ih, bne_iff_ne, ne_eq]
    by_cases h : a = x <;> simp [h]

theorem nodup_jsDedup (l : List String) : (jsDedup l).Nodup := by
  induction l with
  | nil => simp [jsDedup]
  | cons x xs ih =>
    simp only [jsDedup, List.nodup_cons]
    exact ⟨by simp [List.mem_filter], ih.filter _⟩

theorem isValidOutput_iff (o : Option Output) :
    isValidOutput o = true ↔ ∃ out m pid, o = some out ∧ out.metadata = some m ∧
      m.prediction_id = some pid ∧ 0 < pid.length := by
  rcases o with _ | out
  · simp [isValidOutput]
  · rcases hm : out.metadata with _ | m
    · simp [isValidOutput, hm]
    · rcases hp : m.prediction_id with _ | pid
      · simp [isValidOutput, hm, hp]
      · simp [isValidOutput, hm, hp]

theorem isIncomplete_iff (o : Option Output) :
    isIncomplete o = true ↔ ∃ out m pid, o = some out ∧ out.metadata = some m ∧
      m.prediction_id = some pid ∧ pid ≠ "" ∧ out.status ≠ "succeeded" ∧
      out.status ≠ "failed" := by
  rcases o with _ | out
  · simp [isIncomplete]
  · rcases hm : out.metadata with _ | m
    · simp [isIncomplete, hm]
    · rcases hp : m.prediction_id with _ | pid
      · simp [isIncomplete, hm, hp]
      · simp [isIncomplete, hm, hp, and_assoc]

theorem lengthPos_of_ne_empty (s : String) (h : s ≠ "") : 0 < s.length := by
  cases s with
  | mk data =>
    cases data with
    | nil => exact absurd rfl h
    | cons c cs => simp [String.length]

theorem ne_empty_of_lengthPos (s : String) (h : 0 < s.length) : s ≠ "" := by
  cases s with
  | mk data =>
    cases data with
    | nil => simp [String.length] at h
    | cons c cs =>
      intro hh
      have h2 : c :: cs = ([] : List Char) := congrArg String.data hh
      cases h2

/-- Membership in the deduplicated id list of the poll request, phrased
over the registry the poll cycle started from: exactly the non-empty
remote ids of its outputs in a non-terminal status. -/
theorem mem_pollIds_cleanup (s : String) (outs : Registry) :
    s ∈ pollIds (cleanupOutputs outs) ↔ ∃ o ∈ outs, specTrackable s o := by
  rw [pollIds, mem_jsDedup, List.mem_filterMap]
  constructor
  · rintro ⟨o, ho, hg⟩
    have hmem := List.mem_filter.1 ho
    have hmem2 := List.mem_filter.1 hmem.1
    obtain ⟨out, m, pid, rfl, hm, hp, hne, hs1, hs2⟩ :=
      (isIncomplete_iff o).1 hmem.2
    simp only [Option.some_bind, hm, hp] at hg
    have hps : pid = s := by
      by_cases h0 : 0 < pid.length <;> simp [h0] at hg
      exact hg
    subst hps
    exact ⟨some out, hmem2.1, out, m, rfl, hm, hp, hne, hs1, hs2⟩
  · rintro ⟨o, ho, out, m, rfl, hm, hp, hne, hs1, hs2⟩
    refine ⟨some out, ?_, ?_⟩
    · refine List.mem_filter.2 ⟨List.mem_filter.2 ⟨ho, ?_⟩, ?_⟩
      · exact (isValidOutput_iff _).2
          ⟨out, m, s, rfl, hm, hp, lengthPos_of_ne_empty s hne⟩
      · exact (isIncomplete_iff _).2 ⟨out, m, s, rfl, hm, hp, hne, hs1, hs2⟩
    · simp only [Option.some_bind, hm, hp]
      simp [lengthPos_of_ne_empty s hne]

/-! Claim theorems. -/

/-- C1, counterexample to the claim as stated: on a registry holding a
null slot and one incomplete output, the batched poll call is issued and
fails, yet the outputs array afterwards differs from the starting one
(the initial cleanup pass dropped the null slot). -/
theorem claim_C1_cex :
    (pollIncompletePredictions sampleEnvOK .fail
        [none, some sampleOutput1]).request ≠ none ∧
    (pollIncompletePredictions sampleEnvOK .fail
        [none, some sampleOutput1]).outputs ≠ [none, some sampleOutput1] := by
  decide

/-- C1, amended: if the batched poll call fails (a thrown transport error,
or a missing or error-carrying response), the operation aborts after the
initial cleanup pass: the outputs array afterwards is exactly
`cleanupOutputs` of the starting one — nothing is reconciled and no output
is partially updated — and in particular a registry that cleanup leaves
alone is unchanged. -/
theorem claim_C1 (env : ConvEnv) (resp : PollResp) (outs : Registry)
    (h : resp = .throw ∨ resp = .fail) :
    (pollIncompletePredictions env resp outs).outputs = cleanupOutputs outs ∧
    (cleanupOutputs outs = outs →
      (pollIncompletePredictions env resp outs).outputs = outs) := by
  have h1 : (pollIncompletePredictions env resp outs).outputs = cleanupOutputs outs := by
    rcases h with h | h <;> subst h <;>
      by_cases hids : (pollIds (cleanupOutputs outs)).length = 0 <;>
      simp [pollIncompletePredictions, hids]
  exact ⟨h1, fun h2 => h1.trans h2⟩

/-- C1, witness: the amended theorem applied to a concrete failing poll. -/
theorem claim_C1_witness :
    ((PollResp.fail = PollResp.throw ∨ PollResp.fail = PollResp.fail) ∧
      (pollIncompletePredictions sampleEnvOK .fail
          [none, some sampleOutput1]).outputs =
        cleanupOutputs [none, some sampleOutput1]) :=
  ⟨Or.inr rfl,
    (claim_C1 sampleEnvOK .fail [none, some sampleOutput1] (Or.inr rfl)).1⟩

theorem nodup_pollIds (outs : Registry) : (pollIds outs).Nodup := by
  unfold pollIds; exact nodup_jsDedup _

theorem pollRequest_eq (env : ConvEnv) (resp : PollResp) (outs : Registry) :
    (pollIncompletePredictions env resp outs).request =
      if (pollIds (cleanupOutputs outs)).length = 0 then none
      else some (pollIds (cleanupOutputs outs)) := by
  unfold pollIncompletePredictions
  by_cases h0 : (pollIds (cleanupOutputs outs)).length = 0 <;>
    rcases resp <;> simp [h0]

/-- C3: each invocation issues at most one poll request; when a request is
issued, its id list is duplicate-free and holds exactly the non-empty
remote ids of the registry's outputs in a non-terminal status; and no
request at all is issued exactly when there is no such id. -/
theorem claim_C3 (env : ConvEnv) (resp : PollResp) (outs : Registry) :
    (∀ ids, (pollIncompletePredictions env resp outs).request = some ids →
      ids.Nodup ∧ ∀ s, s ∈ ids ↔ ∃ o ∈ outs, specTrackable s o) ∧
    ((pollIncompletePredictions env resp outs).request = none ↔
      ∀ s, ¬ ∃ o ∈ outs, specTrackable s o) := by
  rw [pollRequest_eq]
  by_cases h0 : (pollIds (cleanupOutputs outs)).length = 0
  · simp only [h0, if_true]
    constructor
    · intro ids hids; cases hids
    · simp only [true_iff]
      intro s hs
      have : s ∈ pollIds (cleanupOutputs outs) := (mem_pollIds_cleanup s outs).2 hs
      rw [List.length_eq_zero.1 h0] at this
      cases this
  · simp only [h0, if_false]
    constructor
    · intro ids hids
      have hids2 : ids = pollIds (cleanupOutputs outs) := by
        have := hids.symm
        rw [Option.some.injEq] at this
        exact this
      subst hids2
      exact ⟨nodup_pollIds _, fun s => mem_pollIds_cleanup s outs⟩
    · constructor
      · intro hcon; cases hcon
      · intro hnone
        exfalso
        rcases List.exists_mem_of_length_pos (Nat.pos_of_ne_zero h0) with ⟨s, hs⟩
        exact hnone s ((mem_pollIds_cleanup s outs).1 hs)

/-- C3, witness: a registry with one incomplete output yields the request
id list consisting of its remote id, duplicate-free and characterized by
trackability. -/
theorem claim_C3_witness :
    (["job1"] : List String).Nodup ∧
    ∀ s, s ∈ (["job1"] : List String) ↔
      ∃ o ∈ ([some sampleOutput1] : Registry), specTrackable s o :=
  (claim_C3 sampleEnvOK .fail [some sampleOutput1]).1 ["job1"] (by decide)

/-- C8, counterexample to the claim as stated: an array of remote
references is not itself a string beginning with the remote scheme, yet
`urlToBase64` does not return it unchanged — its elements are fetched and
converted. -/
theorem claim_C8_cex :
    isRemoteRef (.arr [.str "https://a/b.png"]) = false ∧
    urlToBase64 sampleEnvOK (.arr [.str "https://a/b.png"]) ≠
      .ok (.arr [.str "https://a/b.png"]) := by
  decide

/-- C8, amended: for every non-array value that is not a string beginning
with "https", `urlToBase64` returns the value unchanged, whatever the
fetch environment (no fetch outcome can influence the result). -/
theorem claim_C8 (env : ConvEnv) (x : Asset)
    (hnr : isRemoteRef x = false) (hna : x.isArr = false) :
    urlToBase64 env x = .ok x := by
  rcases x with s | l | t
  · have hs : jsStartsWith s "https" = false := by
      simpa [isRemoteRef] using hnr
    simp [urlToBase64, convertSingle, hs]
  · simp [Asset.isArr] at hna
  · rfl

/-- C8, witness: the amended theorem applied to a plain string and to an
opaque non-string value. -/
theorem claim_C8_witness :
    (isRemoteRef (.str "plain") = false ∧ (Asset.str "plain").isArr = false ∧
      urlToBase64 sampleEnvOK (.str "plain") = .ok (.str "plain")) ∧
    urlToBase64 sampleEnvOK (.other 7) = .ok (.other 7) :=
  ⟨⟨by decide, by decide,
      claim_C8 sampleEnvOK (.str "plain") (by decide) (by decide)⟩,
    claim_C8 sampleEnvOK (.other 7) (by decide) (by decide)⟩

theorem mapAll_ok_forall (f : Asset → Except Unit Asset) (l bs : List Asset)
    (h : mapAll f l = .ok bs) :
    List.Forall₂ (fun a b => f a = .ok b) l bs := by
  induction l generalizing bs with
  | nil =>
    rw [mapAll] at h
    cases h
    exact .nil
  | cons a rest ih =>
    rw [mapAll] at h
    rcases hfa : f a with e | b <;>
      rcases hrest : mapAll f rest with e2 | bs2 <;>
      rw [hfa, hrest] at h
    · cases h
    · cases h
    · cases h
    · cases h
      exact .cons hfa (ih bs2 hrest)

theorem convertSingle_ok_str (env : ConvEnv) (s : String) (r : Asset)
    (h : convertSingle env (.str s) = .ok r) : ∃ t, r = .str t := by
  rw [convertSingle] at h
  split at h
  · split at h
    · cases h; exact ⟨s, rfl⟩
    · split at h
      · cases h
      · cases h; exact ⟨_, rfl⟩
  · cases h; exact ⟨s, rfl⟩

/-- C9, counterexample to the claim as stated: a failure of the
file-reader stage of one element's conversion does not fall back to that
element's original reference — it rejects the whole conversion, so no
sequence is returned at all. -/
theorem claim_C9_cex :
    convertSingle sampleEnvReadFail (.str "https://a/b.png") = .error () ∧
    urlToBase64 sampleEnvReadFail
      (.arr [.str "https://a/b.png", .str "p"]) = .error () := by
  decide

/-- C9, amended: `urlToBase64` preserves shape whenever it returns a
value: an array input yields an array of equal length whose elements are
the independent in-order conversions of the input's elements, and a
non-array input is converted as a scalar, never yielding an array.  A
fetch-stage conversion failure for one element falls back to that
element's original reference; only a failure of the file-reader stage
rejects the whole conversion instead. -/
theorem claim_C9 (env : ConvEnv) :
    (∀ elems r, urlToBase64 env (.arr elems) = .ok r →
      ∃ rs, r = .arr rs ∧ rs.length = elems.length ∧
        List.Forall₂ (fun a b => convertSingle env a = .ok b) elems rs) ∧
    (∀ a, a.isArr = false → urlToBase64 env a = convertSingle env a ∧
      ∀ r, urlToBase64 env a = .ok r → r.isArr = false) ∧
    (∀ s, jsStartsWith s "https" = true → env.fetch s = none →
      convertSingle env (.str s) = .ok (.str s)) := by
  refine ⟨?_, ?_, ?_⟩
  · intro elems r hr
    rw [urlToBase64] at hr
    rcases hm : mapAll (convertSingle env) elems with e | rs <;> rw [hm] at hr
    · cases hr
    · cases hr
      have hall := mapAll_ok_forall (convertSingle env) elems rs hm
      exact ⟨rs, rfl, hall.length_eq.symm, hall⟩
  · intro a ha
    rcases a with s | l | t
    · refine ⟨rfl, ?_⟩
      intro r hr
      obtain ⟨t, rfl⟩ := convertSingle_ok_str env s r hr
      rfl
    · simp [Asset.isArr] at ha
    · exact ⟨rfl, fun r hr => by cases hr; rfl⟩
  · intro s hst hf
    rw [convertSingle, if_pos hst, hf]

/-- C9, witness: a two-element array where the first element's fetch
fails keeps its shape, the first element falling back to its original
reference; and a scalar stays a scalar. -/
theorem claim_C9_witness :
    (∃ rs, Asset.arr [.str "https://a/b.q", .str "p"] = .arr rs ∧
      rs.length = ([Asset.str "https://a/b.q", Asset.str "p"]).length ∧
      List.Forall₂
        (fun a b => convertSingle sampleEnvFetchFail a = .ok b)
        [Asset.str "https://a/b.q", Asset.str "p"] rs) ∧
    convertSingle sampleEnvFetchFail (.str "https://a/b.q") =
      .ok (.str "https://a/b.q") :=
  ⟨(claim_C9 sampleEnvFetchFail).1
      [.str "https://a/b.q", .str "p"]
      (.arr [.str "https://a/b.q", .str "p"]) (by decide),
    (claim_C9 sampleEnvFetchFail).2.2 "https://a/b.q" (by decide) rfl⟩

/-- C5: a successful creation call whose aspect ratio splits into two
digit strings W and H with W positive appends one output whose placement
width is the base size 300 and whose height is (H / W) * 300; nothing
else changes. -/
theorem claim_C5 (p : CreateResp) (input : Input) (outs : Registry)
    (W H : Nat) (ws hs : String)
    (herr : p.error = false)
    (hsplit : jsSplit input.aspect_ratio ':' = [ws, hs])
    (hw : jsToNat ws = some W) (hh : jsToNat hs = some H) (hW : 0 < W) :
    createPrediction (.ok p) input outs = outs ++ [some {
      id := "output-" ++ p.id
      status := p.status
      input := p.input
      output := none
      metadata := some {
        prediction_id := some p.id
        x := 0
        y := 0
        rotation := 0
        width := some 300
        height := some ((H : Rat) / (W : Rat) * 300) } }] := by
  have hWne : ((W : Rat)) ≠ 0 := by
    exact_mod_cast Nat.pos_iff_ne_zero.1 hW
  simp only [createPrediction, herr, Bool.false_eq_true, if_false, hsplit]
  simp [jsNum, hw, hh, hWne]

/-- C5, witness: creating with aspect ratio "4:3" appends an output with
placement width 300 and height 225. -/
theorem claim_C5_witness :
    createPrediction
        (.ok { id := "p1", status := "starting", input := sampleInput, error := false })
        sampleInput [] = [some {
      id := "output-p1"
      status := "starting"
      input := sampleInput
      output := none
      metadata := some {
        prediction_id := some "p1"
        x := 0
        y := 0
        rotation := 0
        width := some 300
        height := some 225 } }] := by
  have h := claim_C5
    { id := "p1", status := "starting", input := sampleInput, error := false }
    sampleInput [] 4 3 "4" "3" rfl (by decide) (by decide) (by decide) (by decide)
  rw [h]
  norm_num
  decide

theorem matchesJob_none (jid : String) : matchesJob jid none = false := rfl

theorem matchesId_none (cid : String) : matchesId cid none = false := rfl

theorem matchesId_self (out : Output) : matchesId out.id (some out) = true := by
  simp [matchesId]

theorem updatedOutput_id (env : ConvEnv) (j : RemoteJob) (snap : Output) :
    (updatedOutput env j snap).id = snap.id := by
  rcases hjo : j.output with _ | res
  · simp [updatedOutput, hjo]
  · by_cases ht : res.truthy = true
    · rcases hc : urlToBase64 env res with e | conv <;>
        simp [updatedOutput, hjo, ht, hc]
    · simp [updatedOutput, hjo, ht]

theorem mem_idsOf (out : Output) (L : Registry) (h : some out ∈ L) :
    out.id ∈ idsOf L :=
  List.mem_filterMap.2 ⟨some out, h, rfl⟩

theorem applyUpdate_head (env : ConvEnv) (j : RemoteJob) (out_a : Output)
    (L : Registry) :
    applyUpdate env j (some out_a :: L) out_a =
      some (updatedOutput env j out_a) :: L := by
  unfold applyUpdate
  rw [List.findIdx?_cons, matchesId_self]
  simp

theorem applyUpdate_cons (env : ConvEnv) (j : RemoteJob) (b : Option Output)
    (acc : Registry) (snap : Output)
    (h : matchesId snap.id b = false) :
    applyUpdate env j (b :: acc) snap = b :: applyUpdate env j acc snap := by
  unfold applyUpdate
  rw [List.findIdx?_cons, h]
  simp only [Bool.false_eq_true, if_false, List.findIdx?_start_succ]
  rcases hidx : acc.findIdx? (matchesId snap.id) with _ | i <;> rfl

theorem foldl_reconcile_cons (env : ConvEnv) (j : RemoteJob) (S : Registry)
    (b : Option Output) (acc : Registry)
    (h : ∀ out : Output, some out ∈ S → matchesId out.id b = false) :
    S.foldl (reconcileStep env j) (b :: acc) =
      b :: S.foldl (reconcileStep env j) acc := by
  induction S generalizing acc with
  | nil => rfl
  | cons o S ih =>
    rcases o with _ | snap
    · rw [List.foldl_cons, List.foldl_cons]
      exact ih acc (fun out hout => h out (List.mem_cons_of_mem _ hout))
    · rw [List.foldl_cons, List.foldl_cons]
      have hstep : reconcileStep env j (b :: acc) (some snap) =
          b :: reconcileStep env j acc (some snap) :=
        applyUpdate_cons env j b acc snap (h snap (List.mem_cons_self _ _))
      rw [hstep]
      exact ih _ (fun out hout => h out (List.mem_cons_of_mem _ hout))

/-- The reconciliation of one returned job over a registry whose client
ids are duplicate-free replaces in place exactly the entries whose
`prediction_id` matches the job's id, each by its updated copy. -/
theorem reconcileJob_eq_map (env : ConvEnv) (j : RemoteJob) (jid : String)
    (L : Registry) (hnd : (idsOf L).Nodup) :
    reconcileJob env j jid L =
      L.map (fun o =>
        if matchesJob jid o then o.map (updatedOutput env j) else o) := by
  unfold reconcileJob
  revert hnd
  induction L with
  | nil => intro _; rfl
  | cons a L ih =>
    intro hnd
    rcases a with _ | out_a
    · have hndL : (idsOf L).Nodup := by
        simpa [idsOf, List.filterMap_cons] using hnd
      rw [List.filter_cons]
      simp only [matchesJob_none, Bool.false_eq_true, if_false]
      rw [foldl_reconcile_cons env j (L.filter (matchesJob jid)) none L
        (fun out _ => rfl)]
      rw [ih hndL]
      simp [matchesJob_none]
    · have hcons : idsOf (some out_a :: L) = out_a.id :: idsOf L := rfl
      rw [hcons] at hnd
      have hnotin : out_a.id ∉ idsOf L := (List.nodup_cons.1 hnd).1
      have hndL : (idsOf L).Nodup := (List.nodup_cons.1 hnd).2
      by_cases hP : matchesJob jid (some out_a) = true
      · rw [List.filter_cons]
        simp only [hP, if_true]
        rw [List.foldl_cons]
        have hstep : reconcileStep env j (some out_a :: L) (some out_a) =
            some (updatedOutput env j out_a) :: L :=
          applyUpdate_head env j out_a L
        rw [hstep]
        have hothers : ∀ out : Output, some out ∈ L.filter (matchesJob jid) →
            matchesId out.id (some (updatedOutput env j out_a)) = false := by
          intro out hout
          have hmem : out.id ∈ idsOf L :=
            mem_idsOf out L (List.mem_of_mem_filter hout)
          have hne2 : out_a.id ≠ out.id := fun he => hnotin (he ▸ hmem)
          simp [matchesId, updatedOutput_id, hne2]
        rw [foldl_reconcile_cons env j (L.filter (matchesJob jid))
          (some (updatedOutput env j out_a)) L hothers]
        rw [ih hndL]
        simp [hP]
      · rw [List.filter_cons]
        simp only [hP, Bool.false_eq_true, if_false]
        have hothers : ∀ out : Output, some out ∈ L.filter (matchesJob jid) →
            matchesId out.id (some out_a) = false := by
          intro out hout
          have hmem : out.id ∈ idsOf L :=
            mem_idsOf out L (List.mem_of_mem_filter hout)
          have hne2 : out_a.id ≠ out.id := fun he => hnotin (he ▸ hmem)
          simp [matchesId, hne2]
        rw [foldl_reconcile_cons env j (L.filter (matchesJob jid))
          (some out_a) L hothers]
        rw [ih hndL]
        simp [hP]

theorem idsOf_cleanup_nodup (outs : Registry) (h : (idsOf outs).Nodup) :
    (idsOf (cleanupOutputs outs)).Nodup :=
  h.sublist ((List.filter_sublist _).filterMap _)

/-- One returned job with a truthy id, reconciled by the full poll cycle:
the outputs array afterwards is the cleaned registry with exactly the
matching entries replaced in place by their updated copies. -/
theorem poll_single_job (env : ConvEnv) (outs : Registry) (j : RemoteJob)
    (jid : String)
    (hid : j.id = some jid) (hjid : jid ≠ "")
    (hnd : (idsOf outs).Nodup)
    (hne : (pollIds (cleanupOutputs outs)).length ≠ 0) :
    (pollIncompletePredictions env (.ok [some j]) outs).outputs =
      (cleanupOutputs outs).map (fun o =>
        if matchesJob jid o then o.map (updatedOutput env j) else o) := by
  have h1 : (pollIncompletePredictions env (.ok [some j]) outs).outputs =
      processJobs env [some j] (cleanupOutputs outs) := by
    unfold pollIncompletePredictions
    simp [hne]
  rw [h1]
  have hbeq : (jid == "") = false := by simp [hjid]
  unfold processJobs
  rw [List.foldl_cons, List.foldl_nil]
  simp only [hid, hbeq, Bool.false_eq_true, if_false]
  exact reconcileJob_eq_map env j jid _ (idsOf_cleanup_nodup outs hnd)

/-- C2: when a returned job carries a truthy result reference whose
conversion fails (the conversion rejects as a whole), every matching
output still receives the job's status and input, while its previously
recorded result value is left exactly as it was. -/
theorem claim_C2 (env : ConvEnv) (outs : Registry) (j : RemoteJob)
    (jid : String) (res : Asset)
    (hid : j.id = some jid) (hjid : jid ≠ "")
    (hres : j.output = some res) (htr : res.truthy = true)
    (hconv : urlToBase64 env res = .error ())
    (hnd : (idsOf outs).Nodup)
    (hne : (pollIds (cleanupOutputs outs)).length ≠ 0) :
    (pollIncompletePredictions env (.ok [some j]) outs).outputs =
      (cleanupOutputs outs).map (fun o =>
        if matchesJob jid o then
          o.map (fun out => { out with status := j.status, input := j.input })
        else o) := by
  rw [poll_single_job env outs j jid hid hjid hnd hne]
  have hupd : updatedOutput env j =
      fun out => { out with status := j.status, input := j.input } := by
    funext out
    simp [updatedOutput, hres, htr, hconv]
  rw [hupd]

/-- C2, witness: a read-stage conversion failure on a concrete registry —
the matched output keeps its previous result value while status and input
are applied. -/
theorem claim_C2_witness :
    (pollIncompletePredictions sampleEnvReadFail (.ok [some sampleJob])
        [some sampleOutput1]).outputs =
      [some { sampleOutput1 with status := "succeeded", input := sampleInput }] := by
  rw [claim_C2 sampleEnvReadFail [some sampleOutput1] sampleJob "job1"
    (.str "https://a/b.png") rfl (by decide) rfl (by decide) (by decide)
    (by decide) (by decide)]
  decide

/-- C4: when the poll response reports a job as succeeded with a truthy
result reference that converts successfully, every output whose
`prediction_id` equals the job's id — several sharing it included — is
replaced at its existing position by a copy with status succeeded and the
same converted result. -/
theorem claim_C4 (env : ConvEnv) (outs : Registry) (j : RemoteJob)
    (jid : String) (res conv : Asset)
    (hid : j.id = some jid) (hjid : jid ≠ "")
    (hres : j.output = some res) (htr : res.truthy = true)
    (hconv : urlToBase64 env res = .ok conv)
    (hst : j.status = "succeeded")
    (hnd : (idsOf outs).Nodup)
    (hne : (pollIds (cleanupOutputs outs)).length ≠ 0) :
    (pollIncompletePredictions env (.ok [some j]) outs).outputs =
      (cleanupOutputs outs).map (fun o =>
        if matchesJob jid o then
          o.map (fun out =>
            { out with status := "succeeded", input := j.input, output := some conv })
        else o) := by
  rw [poll_single_job env outs j jid hid hjid hnd hne]
  have hupd : updatedOutput env j = fun out =>
      { out with status := "succeeded", input := j.input, output := some conv } := by
    funext out
    simp [updatedOutput, hres, htr, hconv, hst]
  rw [hupd]

/-- C4, witness: two outputs sharing remote id "job1"; the response
reports job1 succeeded with a result reference — both are updated in
place to status succeeded with the same converted result. -/
theorem claim_C4_witness :
    (pollIncompletePredictions sampleEnvOK (.ok [some sampleJob])
        [some sampleOutput1, some sampleOutput2]).outputs =
      [some { sampleOutput1 with
          status := "succeeded"
          input := sampleInput
          output := some (.str "data:image/png;base64,QUJD") },
        some { sampleOutput2 with
          status := "succeeded"
          input := sampleInput
          output := some (.str "data:image/png;base64,QUJD") }] := by
  rw [claim_C4 sampleEnvOK [some sampleOutput1, some sampleOutput2] sampleJob
    "job1" (.str "https://a/b.png") (.str "data:image/png;base64,QUJD")
    rfl (by decide) rfl (by decide) (by decide) rfl (by decide) (by decide)]
  decide

/-- C6: a creation call that throws, or whose response carries an error
field, leaves the outputs array exactly as it was: no output is appended.
-/
theorem claim_C6 (resp : Except Unit CreateResp) (input : Input)
    (outs : Registry)
    (h : resp = .error () ∨ ∃ p, resp = .ok p ∧ p.error = true) :
    createPrediction resp input outs = outs := by
  rcases h with h | ⟨p, hp, he⟩
  · rw [h]; rfl
  · rw [hp]; simp [createPrediction, he]

/-- C6, witness: a thrown creation call on the empty registry leaves it
empty. -/
theorem claim_C6_witness :
    createPrediction (.error ()) sampleInput [] = [] :=
  claim_C6 (.error ()) sampleInput [] (Or.inl rfl)

/-- C7: whatever the starting registry — null slots, missing metadata,
missing or empty prediction_id included — every entry that survives
`cleanupOutputs` is a present output with metadata carrying a non-empty
`prediction_id`. -/
theorem claim_C7 (outs : Registry) (o : Option Output)
    (h : o ∈ cleanupOutputs outs) :
    ∃ out m pid, o = some out ∧ out.metadata = some m ∧
      m.prediction_id = some pid ∧ 0 < pid.length :=
  (isValidOutput_iff o).1 (List.of_mem_filter h)

/-- C7, witness: on a registry with a null slot, an output lacking
metadata, an output with an empty id and one valid output, the survivor
of cleanup is the valid output and the theorem yields its non-empty id. -/
theorem claim_C7_witness :
    (some sampleOutput1 ∈
      cleanupOutputs [none, some sampleNoMeta, some sampleOutput1]) ∧
    ∃ out m pid, some sampleOutput1 = some out ∧ out.metadata = some m ∧
      m.prediction_id = some pid ∧ 0 < pid.length :=
  ⟨by decide, claim_C7 [none, some sampleNoMeta, some sampleOutput1]
    (some sampleOutput1) (by decide)⟩

theorem jsFindIndexById_some (id : String) (outs : Registry) (idx : Nat)
    (h : jsFindIndexById id outs = .ok (some idx)) :
    ∃ out : Output, outs[idx]? = some (some out) ∧ out.id = id := by
  induction outs generalizing idx with
  | nil => simp [jsFindIndexById] at h
  | cons o rest ih =>
    rcases o with _ | out
    · rw [jsFindIndexById] at h
      cases h
    · rw [jsFindIndexById] at h
      by_cases hb : (out.id == id) = true
      · rw [if_pos hb] at h
        cases h
        exact ⟨out, by simp, by simpa using hb⟩
      · rw [if_neg hb] at h
        rcases hr : jsFindIndexById id rest with e | r <;> rw [hr] at h
        · cases h
        · rcases r with _ | i
          · cases h
          · cases h
            obtain ⟨out2, hget, hid2⟩ := ih i hr
            exact ⟨out2, by simpa using hget, hid2⟩

/-- C10: `updateOutputPosition` only ever touches the placement fields of
the single matched output.  The array keeps its length; every slot not
holding an output with the given id is unchanged; a slot holding a
matching output is either unchanged or replaced by a copy differing only
in its metadata position fields (id, status, input, result and
`prediction_id` preserved); and when no entry matches, the whole array is
unchanged. -/
theorem claim_C10 (id : String) (x y rot : Rat) (w hgt : Option Rat)
    (outs : Registry) :
    (updateOutputPosition id x y rot w hgt outs).length = outs.length ∧
    (∀ (i : Nat) (o : Option Output), outs[i]? = some o → matchesId id o = false →
      (updateOutputPosition id x y rot w hgt outs)[i]? = some o) ∧
    (∀ (i : Nat) (o : Option Output), outs[i]? = some o → matchesId id o = true →
      ((updateOutputPosition id x y rot w hgt outs)[i]? = some o ∨
        ∃ out m, o = some out ∧ out.metadata = some m ∧
          (updateOutputPosition id x y rot w hgt outs)[i]? =
            some (some { out with metadata := some (placedMeta x y rot w hgt m) }))) ∧
    ((∀ o ∈ outs, matchesId id o = false) →
      updateOutputPosition id x y rot w hgt outs = outs) := by
  rcases hfind : jsFindIndexById id outs with e | oidx
  · have hres : updateOutputPosition id x y rot w hgt outs = outs := by
      simp only [updateOutputPosition, hfind]
    rw [hres]
    exact ⟨rfl, fun i o hio _ => hio, fun i o hio _ => Or.inl hio, fun _ => rfl⟩
  · rcases oidx with _ | idx
    · have hres : updateOutputPosition id x y rot w hgt outs = outs := by
        simp only [updateOutputPosition, hfind]
      rw [hres]
      exact ⟨rfl, fun i o hio _ => hio, fun i o hio _ => Or.inl hio, fun _ => rfl⟩
    · obtain ⟨out0, hget0, hid0⟩ := jsFindIndexById_some id outs idx hfind
      have hmatch0 : matchesId id (some out0) = true := by
        simp [matchesId, hid0]
      rcases hmeta : out0.metadata with _ | m
      · have hres : updateOutputPosition id x y rot w hgt outs = outs := by
          simp only [updateOutputPosition, hfind, hget0, hmeta]
        rw [hres]
        exact ⟨rfl, fun i o hio _ => hio, fun i o hio _ => Or.inl hio, fun _ => rfl⟩
      · have hlt : idx < outs.length := by
          rcases List.getElem?_eq_some_iff.1 hget0 with ⟨hl, _⟩
          exact hl
        have hres : updateOutputPosition id x y rot w hgt outs =
            outs.set idx
              (some { out0 with
                metadata := some (placedMeta x y rot w hgt m) }) := by
          simp only [updateOutputPosition, hfind, hget0, hmeta]
        refine ⟨by rw [hres]; exact List.length_set outs idx _, ?_, ?_, ?_⟩
        · intro i o hio hm
          have hne : idx ≠ i := by
            intro he
            have ho : o = some out0 := by
              rw [he] at hget0
              rw [hget0] at hio
              exact (Option.some_inj.1 hio).symm
            rw [ho, hmatch0] at hm
            cases hm
          rw [hres, List.getElem?_set_ne hne, hio]
        · intro i o hio hm
          by_cases he : idx = i
          · have ho : o = some out0 := by
              rw [he] at hget0
              rw [hget0] at hio
              exact (Option.some_inj.1 hio).symm
            subst ho
            refine Or.inr ⟨out0, m, rfl, hmeta, ?_⟩
            rw [hres, ← he, List.getElem?_set_self hlt]
          · exact Or.inl (by rw [hres, List.getElem?_set_ne he, hio])
        · intro hnone
          have hcontra := hnone (some out0) (List.getElem?_mem hget0)
          rw [hmatch0] at hcontra
          cases hcontra

/-- C10, witness: the theorem applied at a concrete registry, extracting
that a non-matching call leaves the array unchanged and a matching call
updates only the placement fields of the matched slot. -/
theorem claim_C10_witness :
    updateOutputPosition "zz" 9 9 45 none none
      [some sampleOutput1, some sampleOutput2] =
      [some sampleOutput1, some sampleOutput2] :=
  (claim_C10 "zz" 9 9 45 none none
    [some sampleOutput1, some sampleOutput2]).2.2.2 (by decide)

end Reflux
